import Mathlib

/-
Verification of the sentiment aggregation and scoring pipeline
(scripts/sentiment_engine.py) against its specification.

The Python source is shallowly embedded below: Python floats are modelled
as exact rationals, Python round (banker's rounding) as rndHalfEven,
pandas CSV state as Option (List HistoryRecord) (none = file absent),
and strings as Lean Strings / lists of characters.
-/

/-- Banker's rounding (round half to even) of a rational to an integer,
the behaviour of Python's built-in round. -/
def rndHalfEven (q : ℚ) : ℤ :=
  if q - ⌊q⌋ < 1/2 then ⌊q⌋
  else if 1/2 < q - ⌊q⌋ then ⌊q⌋ + 1
  else if ⌊q⌋ % 2 = 0 then ⌊q⌋ else ⌊q⌋ + 1

/-- Python round(q, n): round to n decimal digits, half to even. -/
def pyRound (q : ℚ) (n : ℕ) : ℚ :=
  (rndHalfEven (q * 10 ^ n) : ℚ) / 10 ^ n

/-- The fixed label table of run_full_pipeline (label_map in the source). -/
def label_map : List (String × String) :=
  [("LABEL_0", "negative"), ("LABEL_1", "neutral"), ("LABEL_2", "positive"),
   ("negative", "negative"), ("neutral", "neutral"), ("positive", "positive")]

/-- label_map.get(r["label"], r["label"]): table lookup with identity fallback. -/
def normalizeLabel (l : String) : String :=
  match label_map.find? (fun kv => kv.1 == l) with
  | some kv => kv.2
  | none => l

/-- round(r["score"], 4): the emitted per-comment confidence score. -/
def normalizeScore (score : ℚ) : ℚ := pyRound score 4

/-- Percentage of a class inside a group: value_counts(normalize=True) * 100. -/
def pctOf (count n : ℕ) : ℚ := (count : ℚ) / (n : ℚ) * 100

/-- One element of the summary_data list built by run_full_pipeline. -/
structure PlatformSummary where
  platform : String
  health_score : ℚ
  dist_pos : ℚ
  dist_neu : ℚ
  dist_neg : ℚ
  total_comments : ℕ
deriving DecidableEq

/-- The per-group body of the summary loop in run_full_pipeline: percentages
from value_counts, health score pos + neu * 0.5 rounded to 2 decimals,
distribution percentages each rounded to 1 decimal. -/
def mkSummary (platform : String) (labels : List String) : PlatformSummary :=
  let n := labels.length
  let pos := pctOf (labels.countP (· == "positive")) n
  let neg := pctOf (labels.countP (· == "negative")) n
  let neu := pctOf (labels.countP (· == "neutral")) n
  { platform := platform
    health_score := pyRound (pos + neu * (1/2)) 2
    dist_pos := pyRound pos 1
    dist_neu := pyRound neu 1
    dist_neg := pyRound neg 1
    total_comments := n }

/-- One row of the sentiment_history.csv log. -/
structure HistoryRecord where
  timestamp : String
  platform : String
  health_score : ℚ
deriving DecidableEq

/-- The history_rows list built by update_history: one row per summary item,
in list order, all carrying the run's minute-granularity timestamp. -/
def mkHistoryRows (ts : String) (summary : List PlatformSummary) : List HistoryRecord :=
  summary.map (fun item => ⟨ts, item.platform, item.health_score⟩)

/-- update_history: the log file is Option (List HistoryRecord) (none = file
absent).  Returns the new log state and whether the duplicate-timestamp
warning was emitted.  Mirrors the source: if the file exists and the
timestamp occurs in its timestamp column, return without writing; otherwise
append the built rows when they are nonempty (creating the file if needed). -/
def update_history (ts : String) (summary : List PlatformSummary)
    (log : Option (List HistoryRecord)) : Option (List HistoryRecord) × Bool :=
  match log with
  | some rows =>
    if ts ∈ rows.map (fun r => r.timestamp) then (some rows, true)
    else if mkHistoryRows ts summary = [] then (some rows, false)
    else (some (rows ++ mkHistoryRows ts summary), false)
  | none =>
    if mkHistoryRows ts summary = [] then (none, false)
    else (some (mkHistoryRows ts summary), false)

/-- Python str.capitalize for the platform names: first character upper-cased,
the rest lower-cased. -/
def pyCapitalize (s : String) : String :=
  match s.data with
  | [] => ⟨[]⟩
  | c :: rest => ⟨c.toUpper :: rest.map Char.toLower⟩

/-- The fixed platform scan order of run_full_pipeline. -/
def platforms : List String := ["instagram", "twitter", "facebook", "linkedin"]

/-- The sequence of (post_id, capitalized platform) registrations performed by
the registry-building loop, for a given assignment of optional post listings
to platform names (none = the platform's file is absent, skipped). -/
def registrationsOf (files : String → Option (List String)) : List String → List (String × String)
  | [] => []
  | p :: rest =>
    (match files p with
     | some pids => pids.map (fun pid => (pid, pyCapitalize p))
     | none => []) ++ registrationsOf files rest

/-- The post_to_platform dict: the full registration sequence over the four
platforms; later registrations of the same key overwrite earlier ones. -/
def post_to_platform (files : String → Option (List String)) : List (String × String) :=
  registrationsOf files platforms

/-- Lookup in a registration sequence with dict semantics: the last
registration of the key wins. -/
def lookupLast : List (String × String) → String → Option String
  | [], _ => none
  | (k, v) :: rest, pid =>
    match lookupLast rest pid with
    | some r => some r
    | none => if k == pid then some v else none

/-- df["post_id"].map(post_to_platform).fillna("General") for one post_id. -/
def resolvePlatform (files : String → Option (List String)) (pid : String) : String :=
  (lookupLast (post_to_platform files) pid).getD "General"

/-- The last platform, in scan order, whose present listing contains the
post_id (the "last writer"); none if no listing contains it. -/
def lastListingPlatform (files : String → Option (List String)) :
    List String → String → Option String
  | [], _ => none
  | p :: rest, pid =>
    match lastListingPlatform files rest pid with
    | some r => some r
    | none => if ((files p).getD []).any (fun q => q == pid) then some p else none

/-- Python str.isspace characters (the whitespace stripped by str.strip and
split on by str.split). -/
def pyIsSpace (c : Char) : Bool :=
  let n := c.toNat
  (9 ≤ n && n ≤ 13) || n == 32 || (28 ≤ n && n ≤ 31) || n == 133 ||
  n == 160 || n == 0x1680 || (0x2000 ≤ n && n ≤ 0x200A) || n == 0x2028 ||
  n == 0x2029 || n == 0x202F || n == 0x205F || n == 0x3000

/-- Python str.strip on a character list. -/
def pyStripList (l : List Char) : List Char :=
  ((l.dropWhile pyIsSpace).reverse.dropWhile pyIsSpace).reverse

/-- ASCII digit test, as matched by the regex class [0-9]. -/
def isDigitChar (c : Char) : Bool := 48 ≤ c.toNat && c.toNat ≤ 57

/-- The literal three-character alternatives of the emoji_pattern regex: each
alternative after the first is a literal emoji, a literal hyphen and a second
literal emoji (the pattern's ranges are written outside character classes). -/
def emojiLiteralAlternatives : List (Nat × Nat) :=
  [(0x1F600, 0x1F64F), (0x1F300, 0x1F5FF), (0x1F680, 0x1F6FF),
   (0x1F1E0, 0x1F1FF), (0x2702, 0x27B0), (0x24C2, 0x1F251),
   (0x1F900, 0x1F9FF), (0x1FA00, 0x1FA6F)]

/-- Length of the emoji_pattern match starting at the head of the list, if
any: either one or more digits followed by a dot, or one of the literal
three-character alternatives. -/
def matchAt (l : List Char) : Option Nat :=
  match l with
  | [] => none
  | c :: rest =>
    if isDigitChar c then
      match (c :: rest).drop ((c :: rest).takeWhile isDigitChar).length with
      | '.' :: _ => some (((c :: rest).takeWhile isDigitChar).length + 1)
      | _ => none
    else
      match rest with
      | m :: e :: _ =>
        if m == '-' && emojiLiteralAlternatives.any
            (fun pr => pr.1 == c.toNat && pr.2 == e.toNat) then some 3
        else none
      | _ => none

/-- re.sub(emoji_pattern, "", s): delete leftmost non-overlapping matches,
scanning left to right.  Fuel-driven; fuel = length suffices since every
match consumes at least one character. -/
def reSubFuel : ℕ → List Char → List Char
  | 0, l => l
  | _ + 1, [] => []
  | fuel + 1, c :: rest =>
    match matchAt (c :: rest) with
    | some n => reSubFuel fuel ((c :: rest).drop n)
    | none => c :: reSubFuel fuel rest

/-- The emoji-substitution pass of detect_language. -/
def pyCleanEmoji (l : List Char) : List Char := reSubFuel l.length l

/-- Python str.split with no argument: split on whitespace runs, dropping
empty pieces. -/
def pySplitAux : List Char → List Char → List (List Char)
  | [], acc => if acc.isEmpty then [] else [acc.reverse]
  | c :: rest, acc =>
    if pyIsSpace c then
      if acc.isEmpty then pySplitAux rest []
      else acc.reverse :: pySplitAux rest []
    else pySplitAux rest (c :: acc)

/-- Python str.split with no argument. -/
def pySplitList (l : List Char) : List (List Char) := pySplitAux l []

/-- Devanagari block test: the regex [ऀ-ॿ]. -/
def isDevanagari (c : Char) : Bool := 0x900 ≤ c.toNat && c.toNat ≤ 0x97F

/-- The fixed transliterated Hindi/Hinglish lexicon of detect_language. -/
def hinglish_words : List String :=
  ["hai", "hain", "tha", "thi", "kar", "kya", "yeh", "woh", "mast",
   "ekdum", "bohot", "bahut", "achha", "accha", "theek", "thik",
   "karo", "karna", "kitna", "kitne", "aur", "ka", "ki", "ke",
   "nahi", "nahin", "bilkul", "sahi", "galat", "kuch", "kab",
   "kahan", "kaun", "kyun", "kaise", "abhi", "ab", "phir",
   "dekho", "dekh", "sunna", "suno", "bola", "boli", "gaya",
   "gayi", "lena", "liya", "dena", "diya", "kapde", "comfy"]

/-- Substring containment on character lists (the Python `in` operator). -/
def containsSub : List Char → List Char → Bool
  | [], pat => pat.isEmpty
  | c :: rest, pat => pat.isPrefixOf (c :: rest) || containsSub rest pat

/-- The per-lexicon-word hit test of detect_language: the word surrounded by
spaces occurs in the space-padded lowered text, or the text starts with the
word followed by a space, or ends with a space followed by the word. -/
def wordHit (textLower w : List Char) : Bool :=
  containsSub ([' '] ++ textLower ++ [' ']) ([' '] ++ w ++ [' ']) ||
  (w ++ [' ']).isPrefixOf textLower ||
  ([' '] ++ w).isSuffixOf textLower

/-- text_str of detect_language: str(text).strip(). -/
def textStrOf (text : List Char) : List Char := pyStripList text

/-- clean_text of detect_language: the emoji substitution followed by strip. -/
def cleanOf (text : List Char) : List Char :=
  pyStripList (pyCleanEmoji (textStrOf text))

/-- text_lower of detect_language: clean_text.lower(). -/
def lowerOf (text : List Char) : List Char := (cleanOf text).map Char.toLower

/-- hinglish_count of detect_language: the number of lexicon words with a
hit in the lowered cleaned text (each lexicon word contributes at most 1). -/
def hinglishCountOf (text : List Char) : ℕ :=
  (hinglish_words.filter (fun w => wordHit (lowerOf text) w.data)).length

/-- english_words of detect_language: the whitespace-split token list of the
lowered cleaned text; its length is the token count. -/
def tokenCountOf (text : List Char) : ℕ := (pySplitList (lowerOf text)).length

/-- detect_language on a character list: the decision chain of the source,
in source order.  has_hindi_script is computed on the stripped original
text, the length gate and all lexical signals on the cleaned text. -/
def detectLanguageList (text : List Char) : String :=
  if (cleanOf text).length < 3 then "en"
  else if (textStrOf text).any isDevanagari && decide (0 < tokenCountOf text) then "hinglish"
  else if (textStrOf text).any isDevanagari then "hi"
  else if 2 ≤ hinglishCountOf text then "hinglish"
  else if hinglishCountOf text = 1 ∧ tokenCountOf text ≤ 5 then "hinglish"
  else "en"

/-- detect_language on a string. -/
def detect_language (s : String) : String := detectLanguageList s.data

/-- Modelled from the spec (section 4.2, step 4): the total number of
whole-word occurrences of lexicon words in the lowered cleaned text, bounded
by whitespace or string edges, counted with multiplicity — i.e. the number
of whitespace-separated tokens that equal a lexicon word.  Stated only to
compare the spec's counting rule with the source's hinglishCountOf. -/
def specWholeWordOccurrenceTotal (text : List Char) : ℕ :=
  ((pySplitList (lowerOf text)).filter
    (fun t => hinglish_words.any (fun w => w.data == t))).length

/-! ## Helper lemmas -/

theorem le_rndHalfEven (q : ℚ) : q - 1/2 ≤ (rndHalfEven q : ℚ) := by
  have h1 := Int.floor_le q
  have h2 := Int.lt_floor_add_one q
  unfold rndHalfEven
  split_ifs with ha hb hc
  · push_cast; linarith
  · push_cast; linarith
  · push_cast; rw [not_lt] at hb; linarith
  · push_cast; rw [not_lt] at hb; linarith

theorem rndHalfEven_le (q : ℚ) : (rndHalfEven q : ℚ) ≤ q + 1/2 := by
  have h1 := Int.floor_le q
  have h2 := Int.lt_floor_add_one q
  unfold rndHalfEven
  split_ifs with ha hb hc
  · push_cast; linarith
  · push_cast; linarith
  · push_cast; linarith
  · push_cast; rw [not_lt] at ha; linarith

theorem pyRound_nonneg (q : ℚ) (n : ℕ) (h : 0 ≤ q) : 0 ≤ pyRound q n := by
  unfold pyRound
  have hb := le_rndHalfEven (q * 10 ^ n)
  have hq : (0:ℚ) ≤ q * 10 ^ n := by positivity
  have hz : (-1 : ℚ) < (rndHalfEven (q * 10 ^ n) : ℚ) := by linarith
  have hz2 : (0 : ℤ) ≤ rndHalfEven (q * 10 ^ n) := by
    have : (-1 : ℤ) < rndHalfEven (q * 10 ^ n) := by exact_mod_cast hz
    omega
  have : (0:ℚ) ≤ (rndHalfEven (q * 10 ^ n) : ℚ) := by exact_mod_cast hz2
  positivity

theorem pyRound_le_hundred (q : ℚ) (n : ℕ) (h : q ≤ 100) : pyRound q n ≤ 100 := by
  unfold pyRound
  have hb := rndHalfEven_le (q * 10 ^ n)
  have hpow : (0:ℚ) < 10 ^ n := by positivity
  have hq : q * 10 ^ n ≤ 100 * 10 ^ n := by nlinarith
  have hz : (rndHalfEven (q * 10 ^ n) : ℚ) < 100 * 10 ^ n + 1 := by linarith
  have hz2 : rndHalfEven (q * 10 ^ n) ≤ 100 * 10 ^ n := by
    have : rndHalfEven (q * 10 ^ n) < 100 * 10 ^ n + 1 := by exact_mod_cast hz
    omega
  rw [div_le_iff hpow]
  calc (rndHalfEven (q * 10 ^ n) : ℚ) ≤ ((100 * 10 ^ n : ℤ) : ℚ) := by exact_mod_cast hz2
    _ = 100 * 10 ^ n := by push_cast; ring

theorem countP_pos_add_neu_le (l : List String) :
    l.countP (· == "positive") + l.countP (· == "neutral") ≤ l.length := by
  induction l with
  | nil => simp
  | cons a t ih =>
    simp only [List.countP_cons, List.length_cons, beq_iff_eq]
    by_cases ha : a = "positive" <;> by_cases hb : a = "neutral" <;>
      simp [ha, hb] at * <;> omega

theorem countP_three_eq (l : List String)
    (hl : ∀ x ∈ l, x = "positive" ∨ x = "neutral" ∨ x = "negative") :
    l.countP (· == "positive") + l.countP (· == "neutral")
      + l.countP (· == "negative") = l.length := by
  induction l with
  | nil => simp
  | cons a t ih =>
    have ha := hl a (List.mem_cons_self a t)
    have ht : ∀ x ∈ t, x = "positive" ∨ x = "neutral" ∨ x = "negative" :=
      fun x hx => hl x (List.mem_cons_of_mem a hx)
    have iht := ih ht
    simp only [List.countP_cons, List.length_cons, beq_iff_eq]
    rcases ha with rfl | rfl | rfl <;> simp <;> omega

theorem ts_mem_mkHistoryRows (ts : String) (summary : List PlatformSummary)
    (h : summary ≠ []) :
    ts ∈ (mkHistoryRows ts summary).map (fun r => r.timestamp) := by
  cases summary with
  | nil => exact absurd rfl h
  | cons s t => simp [mkHistoryRows]

theorem mkHistoryRows_eq_nil_iff (ts : String) (summary : List PlatformSummary) :
    mkHistoryRows ts summary = [] ↔ summary = [] := by
  simp [mkHistoryRows]

/-- C3: when the history log exists and the run's minute-granularity
timestamp already occurs in its timestamp column, update_history writes
nothing at all — the log is returned unchanged for every summary list
(the entire batch is skipped) — and the warning flag is set. -/
theorem update_history_duplicate_timestamp_skips (ts : String)
    (summary : List PlatformSummary) (rows : List HistoryRecord)
    (h : ts ∈ rows.map (fun r => r.timestamp)) :
    update_history ts summary (some rows) = (some rows, true) := by
  simp [update_history, h]

/-- C3 witness: appending for timestamp "2024-01-01 10:00" when that exact
string already occurs in the log leaves the log unchanged and warns. -/
theorem update_history_duplicate_timestamp_skips_witness :
    ("2024-01-01 10:00" ∈
      ([⟨"2024-01-01 10:00", "Instagram", 75⟩] : List HistoryRecord).map
        (fun r => r.timestamp))
    ∧ update_history "2024-01-01 10:00"
        [⟨"Twitter", 50, 40, 20, 40, 5⟩]
        (some [⟨"2024-01-01 10:00", "Instagram", 75⟩])
      = (some [⟨"2024-01-01 10:00", "Instagram", 75⟩], true) :=
  ⟨by decide,
   update_history_duplicate_timestamp_skips "2024-01-01 10:00"
     [⟨"Twitter", 50, 40, 20, 40, 5⟩]
     [⟨"2024-01-01 10:00", "Instagram", 75⟩] (by decide)⟩

/-- C4: the history appender is idempotent within a clock minute: a second
invocation with the same timestamp leaves the log exactly as the first one
did, and a fresh timestamp appends exactly one set of rows — one row per
platform, in summary-list order (mkHistoryRows maps the summary in order). -/
theorem update_history_idempotent (ts : String) (summary : List PlatformSummary)
    (log : Option (List HistoryRecord)) :
    (update_history ts summary (update_history ts summary log).1).1
      = (update_history ts summary log).1
    ∧ (∀ rows, log = some rows → ts ∉ rows.map (fun r => r.timestamp) →
        summary ≠ [] →
        (update_history ts summary log).1 = some (rows ++ mkHistoryRows ts summary))
    ∧ (log = none → summary ≠ [] →
        (update_history ts summary log).1 = some (mkHistoryRows ts summary)) := by
  refine ⟨?_, ?_, ?_⟩
  · rcases log with _ | rows
    · by_cases hs : summary = []
      · subst hs; simp [update_history, mkHistoryRows]
      · have hne : mkHistoryRows ts summary ≠ [] := by
          simpa [mkHistoryRows_eq_nil_iff] using hs
        have hmem := ts_mem_mkHistoryRows ts summary hs
        simp [update_history, hne, hmem]
    · by_cases hmem : ts ∈ rows.map (fun r => r.timestamp)
      · simp [update_history, hmem]
      · by_cases hs : summary = []
        · subst hs; simp [update_history, hmem, mkHistoryRows]
        · have hne : mkHistoryRows ts summary ≠ [] := by
            simpa [mkHistoryRows_eq_nil_iff] using hs
          have hmem2 : ts ∈ (rows ++ mkHistoryRows ts summary).map (fun r => r.timestamp) := by
            rw [List.map_append]
            exact List.mem_append_right _ (ts_mem_mkHistoryRows ts summary hs)
          have hstep : update_history ts summary (some rows)
              = (some (rows ++ mkHistoryRows ts summary), false) := by
            simp [update_history, hmem, hne]
          rw [hstep]
          simp only [update_history, if_pos hmem2]
  · rintro rows rfl hmem hs
    have hne : mkHistoryRows ts summary ≠ [] := by
      simpa [mkHistoryRows_eq_nil_iff] using hs
    simp [update_history, hmem, hne]
  · rintro rfl hs
    have hne : mkHistoryRows ts summary ≠ [] := by
      simpa [mkHistoryRows_eq_nil_iff] using hs
    simp [update_history, hne]

/-- C4 witness: running the appender twice for "2024-01-01 10:00" over a log
holding an earlier minute gives the same log as running it once, and the
single run appended exactly one set of rows. -/
theorem update_history_idempotent_witness :
    (update_history "2024-01-01 10:00" [⟨"Instagram", 75, 60, 30, 10, 10⟩]
        (update_history "2024-01-01 10:00" [⟨"Instagram", 75, 60, 30, 10, 10⟩]
          (some [⟨"2024-01-01 09:00", "Instagram", 70⟩])).1).1
      = (update_history "2024-01-01 10:00" [⟨"Instagram", 75, 60, 30, 10, 10⟩]
          (some [⟨"2024-01-01 09:00", "Instagram", 70⟩])).1
    ∧ (update_history "2024-01-01 10:00" [⟨"Instagram", 75, 60, 30, 10, 10⟩]
          (some [⟨"2024-01-01 09:00", "Instagram", 70⟩])).1
      = some ([⟨"2024-01-01 09:00", "Instagram", 70⟩]
          ++ mkHistoryRows "2024-01-01 10:00" [⟨"Instagram", 75, 60, 30, 10, 10⟩]) := by
  have h := update_history_idempotent "2024-01-01 10:00"
    [⟨"Instagram", 75, 60, 30, 10, 10⟩] (some [⟨"2024-01-01 09:00", "Instagram", 70⟩])
  exact ⟨h.1, h.2.1 [⟨"2024-01-01 09:00", "Instagram", 70⟩] rfl (by decide)
    (by simp)⟩

/-- C10: invoking update_history with an empty summary list leaves the
history log entirely unchanged; in particular an absent log file is not
created. -/
theorem update_history_empty_summary_noop (ts : String)
    (log : Option (List HistoryRecord)) :
    (update_history ts [] log).1 = log := by
  rcases log with _ | rows
  · simp [update_history, mkHistoryRows]
  · by_cases hmem : ts ∈ rows.map (fun r => r.timestamp) <;>
      simp [update_history, hmem, mkHistoryRows]

/-- C2: for every nonempty platform group, the emitted health score equals
round(pos + 0.5 * neu, 2) with pos and neu the class percentages
(count / N * 100), and it always lies in [0, 100]. -/
theorem mkSummary_health_score_formula_and_bounds (platform : String)
    (labels : List String) (h : labels ≠ []) :
    (mkSummary platform labels).health_score
      = pyRound (pctOf (labels.countP (· == "positive")) labels.length
          + (1/2) * pctOf (labels.countP (· == "neutral")) labels.length) 2
    ∧ 0 ≤ (mkSummary platform labels).health_score
    ∧ (mkSummary platform labels).health_score ≤ 100 := by
  have hN : 0 < labels.length := List.length_pos.mpr h
  have hNq : (0:ℚ) < (labels.length : ℚ) := by exact_mod_cast hN
  have hpu := countP_pos_add_neu_le labels
  have hpuq : ((labels.countP (· == "positive")) : ℚ)
      + ((labels.countP (· == "neutral")) : ℚ) ≤ (labels.length : ℚ) := by
    exact_mod_cast hpu
  have hhs : (mkSummary platform labels).health_score
      = pyRound (pctOf (labels.countP (· == "positive")) labels.length
          + pctOf (labels.countP (· == "neutral")) labels.length * (1/2)) 2 := rfl
  have harg : pctOf (labels.countP (· == "positive")) labels.length
      + pctOf (labels.countP (· == "neutral")) labels.length * (1/2)
      = pctOf (labels.countP (· == "positive")) labels.length
      + (1/2) * pctOf (labels.countP (· == "neutral")) labels.length := by ring
  refine ⟨by rw [hhs, harg], ?_, ?_⟩
  · rw [hhs]
    apply pyRound_nonneg
    unfold pctOf
    positivity
  · rw [hhs]
    apply pyRound_le_hundred
    unfold pctOf
    have key : ((labels.countP (· == "positive")) : ℚ) / (labels.length : ℚ) * 100
        + ((labels.countP (· == "neutral")) : ℚ) / (labels.length : ℚ) * 100 * (1/2)
        = (((labels.countP (· == "positive")) : ℚ) * 100
            + ((labels.countP (· == "neutral")) : ℚ) * 50) / (labels.length : ℚ) := by
      field_simp
      ring
    rw [key, div_le_iff hNq]
    have h1 : (0:ℚ) ≤ ((labels.countP (· == "neutral")) : ℚ) := by positivity
    linarith

/-- C2 witness: a group of 10 comments with 6 positive, 3 neutral and
1 negative has health score 75, inside [0, 100]. -/
theorem mkSummary_health_score_formula_and_bounds_witness :
    ((List.replicate 6 "positive" ++ List.replicate 3 "neutral" ++ ["negative"])
        ≠ ([] : List String))
    ∧ 0 ≤ (mkSummary "Instagram"
        (List.replicate 6 "positive" ++ List.replicate 3 "neutral" ++ ["negative"])).health_score
    ∧ (mkSummary "Instagram"
        (List.replicate 6 "positive" ++ List.replicate 3 "neutral" ++ ["negative"])).health_score ≤ 100
    ∧ (mkSummary "Instagram"
        (List.replicate 6 "positive" ++ List.replicate 3 "neutral" ++ ["negative"])).health_score = 75 := by
  have h := mkSummary_health_score_formula_and_bounds "Instagram"
    (List.replicate 6 "positive" ++ List.replicate 3 "neutral" ++ ["negative"])
    (by decide)
  refine ⟨by decide, h.2.1, h.2.2, ?_⟩
  have hc1 : (List.replicate 6 "positive" ++ List.replicate 3 "neutral"
      ++ ["negative"]).countP (· == "positive") = 6 := by decide
  have hc2 : (List.replicate 6 "positive" ++ List.replicate 3 "neutral"
      ++ ["negative"]).countP (· == "neutral") = 3 := by decide
  have hlen : (List.replicate 6 "positive" ++ List.replicate 3 "neutral"
      ++ ["negative"]).length = 10 := by decide
  rw [h.1, hc1, hc2, hlen]
  norm_num [pctOf, pyRound, rndHalfEven]

/-- C9: for every nonempty platform group whose labels are all canonical,
the three independently rounded distribution percentages sum to a value in
[99.9, 100.1]. -/
theorem mkSummary_distribution_sum_tolerance (platform : String)
    (labels : List String) (h : labels ≠ [])
    (hl : ∀ x ∈ labels, x = "positive" ∨ x = "neutral" ∨ x = "negative") :
    (999/10 : ℚ) ≤ (mkSummary platform labels).dist_pos
        + (mkSummary platform labels).dist_neu + (mkSummary platform labels).dist_neg
    ∧ (mkSummary platform labels).dist_pos + (mkSummary platform labels).dist_neu
        + (mkSummary platform labels).dist_neg ≤ 1001/10 := by
  have hN : 0 < labels.length := List.length_pos.mpr h
  have hNq : (0:ℚ) < (labels.length : ℚ) := by exact_mod_cast hN
  have hsum := countP_three_eq labels hl
  set p := labels.countP (· == "positive") with hp
  set u := labels.countP (· == "neutral") with hu
  set g := labels.countP (· == "negative") with hg
  have hsumq : (p:ℚ) + (u:ℚ) + (g:ℚ) = (labels.length : ℚ) := by exact_mod_cast hsum
  have hpct : pctOf p labels.length + pctOf u labels.length + pctOf g labels.length
      = 100 := by
    unfold pctOf
    field_simp
    linarith
  have hdp : (mkSummary platform labels).dist_pos = pyRound (pctOf p labels.length) 1 := rfl
  have hdu : (mkSummary platform labels).dist_neu = pyRound (pctOf u labels.length) 1 := rfl
  have hdg : (mkSummary platform labels).dist_neg = pyRound (pctOf g labels.length) 1 := rfl
  set X := pctOf p labels.length * 10 ^ 1 with hX
  set Y := pctOf u labels.length * 10 ^ 1 with hY
  set Z := pctOf g labels.length * 10 ^ 1 with hZ
  have hXYZ : X + Y + Z = 1000 := by rw [hX, hY, hZ]; push_cast; nlinarith [hpct]
  have bX1 := le_rndHalfEven X
  have bX2 := rndHalfEven_le X
  have bY1 := le_rndHalfEven Y
  have bY2 := rndHalfEven_le Y
  have bZ1 := le_rndHalfEven Z
  have bZ2 := rndHalfEven_le Z
  have hSlo : (998:ℚ) < ((rndHalfEven X + rndHalfEven Y + rndHalfEven Z : ℤ) : ℚ) := by
    push_cast
    linarith
  have hShi : ((rndHalfEven X + rndHalfEven Y + rndHalfEven Z : ℤ) : ℚ) < 1002 := by
    push_cast
    linarith
  have hSlo2 : (999:ℤ) ≤ rndHalfEven X + rndHalfEven Y + rndHalfEven Z := by
    have : (998:ℤ) < rndHalfEven X + rndHalfEven Y + rndHalfEven Z := by exact_mod_cast hSlo
    omega
  have hShi2 : rndHalfEven X + rndHalfEven Y + rndHalfEven Z ≤ 1001 := by
    have : rndHalfEven X + rndHalfEven Y + rndHalfEven Z < (1002:ℤ) := by exact_mod_cast hShi
    omega
  have hsum10 : (mkSummary platform labels).dist_pos + (mkSummary platform labels).dist_neu
      + (mkSummary platform labels).dist_neg
      = ((rndHalfEven X + rndHalfEven Y + rndHalfEven Z : ℤ) : ℚ) / 10 := by
    rw [hdp, hdu, hdg]
    unfold pyRound
    rw [← hX, ← hY, ← hZ]
    push_cast
    ring
  constructor
  · rw [hsum10]
    have : (999:ℚ) ≤ ((rndHalfEven X + rndHalfEven Y + rndHalfEven Z : ℤ) : ℚ) := by
      exact_mod_cast hSlo2
    linarith
  · rw [hsum10]
    have : ((rndHalfEven X + rndHalfEven Y + rndHalfEven Z : ℤ) : ℚ) ≤ (1001:ℚ) := by
      exact_mod_cast hShi2
    linarith

/-- C9 witness: a group of 16 comments with 3 positive, 7 neutral and
6 negative (percentages 18.75, 43.75, 37.5) rounds to 18.8 + 43.8 + 37.5 =
100.1, inside the stated tolerance. -/
theorem mkSummary_distribution_sum_tolerance_witness :
    ((List.replicate 3 "positive" ++ List.replicate 7 "neutral"
        ++ List.replicate 6 "negative") ≠ ([] : List String))
    ∧ (∀ x ∈ (List.replicate 3 "positive" ++ List.replicate 7 "neutral"
        ++ List.replicate 6 "negative"),
        x = "positive" ∨ x = "neutral" ∨ x = "negative")
    ∧ (999/10 : ℚ) ≤ (mkSummary "Twitter"
        (List.replicate 3 "positive" ++ List.replicate 7 "neutral"
          ++ List.replicate 6 "negative")).dist_pos
        + (mkSummary "Twitter"
        (List.replicate 3 "positive" ++ List.replicate 7 "neutral"
          ++ List.replicate 6 "negative")).dist_neu
        + (mkSummary "Twitter"
        (List.replicate 3 "positive" ++ List.replicate 7 "neutral"
          ++ List.replicate 6 "negative")).dist_neg := by
  have h := mkSummary_distribution_sum_tolerance "Twitter"
    (List.replicate 3 "positive" ++ List.replicate 7 "neutral"
      ++ List.replicate 6 "negative") (by decide) (by decide)
  exact ⟨by decide, by decide, h.1⟩

/-- C5: labels in the known vocabulary normalize into the canonical
three-class set, with LABEL_0/1/2 mapping to negative/neutral/positive;
labels outside the table pass through unchanged; the emitted score is the
original score rounded to 4 decimal places. -/
theorem normalizeLabel_vocabulary_and_passthrough (label : String) (score : ℚ) :
    (label ∈ label_map.map Prod.fst →
      (normalizeLabel label = "positive" ∨ normalizeLabel label = "neutral"
        ∨ normalizeLabel label = "negative"))
    ∧ (label ∉ label_map.map Prod.fst → normalizeLabel label = label)
    ∧ normalizeLabel "LABEL_0" = "negative"
    ∧ normalizeLabel "LABEL_1" = "neutral"
    ∧ normalizeLabel "LABEL_2" = "positive"
    ∧ normalizeScore score = pyRound score 4 := by
  refine ⟨?_, ?_, by decide, by decide, by decide, rfl⟩
  · intro hmem
    simp only [label_map, List.map_cons, List.map_nil, List.mem_cons,
      List.not_mem_nil, or_false] at hmem
    rcases hmem with rfl | rfl | rfl | rfl | rfl | rfl <;> decide
  · intro hmem
    unfold normalizeLabel
    have hfind : label_map.find? (fun kv => kv.1 == label) = none := by
      rw [List.find?_eq_none]
      intro kv hkv
      simp only [beq_iff_eq]
      intro heq
      exact hmem (List.mem_map.mpr ⟨kv, hkv, heq⟩)
    rw [hfind]

/-- C5 witness: LABEL_0 is in the known vocabulary and normalizes into the
canonical set. -/
theorem normalizeLabel_vocabulary_and_passthrough_witness :
    ("LABEL_0" ∈ label_map.map Prod.fst)
    ∧ (normalizeLabel "LABEL_0" = "positive" ∨ normalizeLabel "LABEL_0" = "neutral"
        ∨ normalizeLabel "LABEL_0" = "negative") :=
  ⟨by decide, (normalizeLabel_vocabulary_and_passthrough "LABEL_0" 0).1 (by decide)⟩

theorem lookupLast_append (a b : List (String × String)) (pid : String) :
    lookupLast (a ++ b) pid
      = match lookupLast b pid with
        | some r => some r
        | none => lookupLast a pid := by
  induction a with
  | nil =>
    simp only [List.nil_append]
    cases lookupLast b pid <;> rfl
  | cons kv rest ih =>
    rcases kv with ⟨k, v⟩
    cases hb : lookupLast b pid with
    | some r => simp only [List.cons_append, lookupLast, List.append_eq, ih, hb]
    | none => simp only [List.cons_append, lookupLast, List.append_eq, ih, hb]

theorem lookupLast_mapConst (pids : List String) (name pid : String) :
    lookupLast (pids.map (fun q => (q, name))) pid
      = if pids.any (fun q => q == pid) then some name else none := by
  induction pids with
  | nil => rfl
  | cons q rest ih =>
    simp only [List.map_cons, lookupLast, ih, List.any_cons]
    by_cases h : (rest.any fun x => x == pid) = true
    · simp [h]
    · by_cases hq : (q == pid) = true <;> simp [h, hq]

theorem lookupLast_registrationsOf (files : String → Option (List String))
    (ps : List String) (pid : String) :
    lookupLast (registrationsOf files ps) pid
      = (lastListingPlatform files ps pid).map pyCapitalize := by
  induction ps with
  | nil => rfl
  | cons p rest ih =>
    simp only [registrationsOf, lastListingPlatform]
    rw [lookupLast_append, ih]
    cases h : lastListingPlatform files rest pid with
    | some r => simp
    | none =>
      simp only [Option.map_none]
      cases hf : files p with
      | none => simp [lookupLast]
      | some pids =>
        simp only [Option.getD_some]
        rw [lookupLast_mapConst]
        by_cases hany : (pids.any fun q => q == pid) = true <;> simp [hany]

/-- C8: platform attribution returns the capitalized name of the last
platform in the scan order instagram, twitter, facebook, linkedin whose
present post listing contains the comment's post_id, and "General" when no
listing contains it; collisions resolve last-writer-wins. -/
theorem resolvePlatform_last_writer (files : String → Option (List String))
    (pid : String) :
    resolvePlatform files pid
      = match lastListingPlatform files platforms pid with
        | some p => pyCapitalize p
        | none => "General" := by
  unfold resolvePlatform post_to_platform
  rw [lookupLast_registrationsOf]
  cases lastListingPlatform files platforms pid <;> rfl

/-- C1: the pure-Devanagari text "यह बहुत अच्छा है" is classified "hinglish",
not "hi" as the specification states.  In the source, has_english is
len(text_lower.split()) > 0, which is true whenever the cleaned text has at
least 3 characters, so the mixed-script branch fires even for text with no
Latin-alphabet token and the "hi" branch is unreachable. -/
theorem detect_language_pure_devanagari_code_bug :
    detect_language "यह बहुत अच्छा है" = "hinglish"
    ∧ detect_language "यह बहुत अच्छा है" ≠ "hi" :=
  ⟨by decide, by decide⟩

/-- C6 counterexample: the text "hai hai hai hai hai hai" has no Devanagari
characters and six whole-word lexicon occurrences counted with multiplicity
(≥ 2), yet detect_language returns "en", not "hinglish": the source counts
each lexicon word at most once, so repeated occurrences of one word do not
each count toward the total. -/
theorem detect_language_occurrence_counting_counterexample :
    (textStrOf "hai hai hai hai hai hai".data).any isDevanagari = false
    ∧ 2 ≤ specWholeWordOccurrenceTotal "hai hai hai hai hai hai".data
    ∧ detect_language "hai hai hai hai hai hai" = "en"
    ∧ detect_language "hai hai hai hai hai hai" ≠ "hinglish" :=
  ⟨by decide, by decide, by decide, by decide⟩

/-- C6 as amended: for every text without Devanagari script whose cleaned
form has at least 3 characters, detect_language returns "hinglish" exactly
when the number of distinct lexicon words occurring whole-word (bounded by
space characters or string edges, each lexicon word counted at most once)
is ≥ 2, or equals 1 with at most 5 whitespace-separated tokens. -/
theorem detectLanguage_lexicon_decision (text : List Char)
    (hscript : (textStrOf text).any isDevanagari = false)
    (hlen : 3 ≤ (cleanOf text).length) :
    detectLanguageList text = "hinglish"
      ↔ 2 ≤ hinglishCountOf text
        ∨ (hinglishCountOf text = 1 ∧ tokenCountOf text ≤ 5) := by
  unfold detectLanguageList
  rw [if_neg (by omega), hscript]
  simp only [Bool.false_and, Bool.false_eq_true, if_false]
  split_ifs with h1 h2
  · exact iff_of_true rfl (Or.inl h1)
  · exact iff_of_true rfl (Or.inr h2)
  · exact iff_of_false (by decide) (by tauto)

/-- C6 witness: "mast product, bilkul sahi" (no Devanagari, three distinct
lexicon words hit) is classified "hinglish". -/
theorem detectLanguage_lexicon_decision_witness :
    (textStrOf "mast product, bilkul sahi".data).any isDevanagari = false
    ∧ 3 ≤ (cleanOf "mast product, bilkul sahi".data).length
    ∧ detect_language "mast product, bilkul sahi" = "hinglish" := by
  refine ⟨by decide, by decide, ?_⟩
  exact (detectLanguage_lexicon_decision "mast product, bilkul sahi".data
    (by decide) (by decide)).mpr (by decide)
